import Mathlib

/-!
Shallow embedding of the Warframe drop-analyzer core
(src/warframe_drop_analyzer.py and the helper functions of
src/discord_bot.py) together with theorems settling the frozen claims.

Strings are modelled as lists of characters (obtained from Lean string
literals via String.data); percentages are modelled as exact rationals.
Python exceptions are modelled with an explicit error monad: a function
that can raise returns an Except value.
-/

/-- Errors a modelled operation can raise.  attributeError models Python
AttributeError (attribute lookup failure, including method access on None),
valueError models ValueError (float parse failure).  notReady is an extra
constructor standing for the not-ready report that the specification
describes; the code never produces it, which is what claim C6 is about. -/
inductive PyErr where
  | attributeError
  | valueError
  | notReady
deriving DecidableEq, Repr

deriving instance DecidableEq for Except

/-- Python str whitespace / regex class for backslash-s: space, tab,
newline, carriage return, vertical tab, form feed. -/
def pyIsSpace (c : Char) : Bool :=
  c = ' ' || c = '\t' || c = '\n' || c = '\r' || c = '\x0b' || c = '\x0c'

/-- Longest run of characters satisfying p at the head of the list,
returned together with the remaining suffix (models a greedy character
class in a regular expression). -/
def takeRun (p : Char → Bool) : List Char → List Char × List Char
  | [] => ([], [])
  | c :: cs =>
    if p c then
      let r := takeRun p cs
      (c :: r.1, r.2)
    else ([], c :: cs)

/-- Python str.strip(): drop whitespace at both ends. -/
def pyStrip (l : List Char) : List Char :=
  ((l.dropWhile pyIsSpace).reverse.dropWhile pyIsSpace).reverse

/-- Python text.split with a newline separator: splits into lines, keeping
empty segments. -/
def splitOnNl : List Char → List (List Char)
  | [] => [[]]
  | c :: cs =>
    let r := splitOnNl cs
    if c = '\n' then [] :: r
    else
      match r with
      | [] => [[c]]
      | l :: ls => (c :: l) :: ls

/-- Decides whether p occurs at the head of l (literal text at the current
position of a regular-expression scan). -/
def isPre : List Char → List Char → Bool
  | [], _ => true
  | _ :: _, [] => false
  | a :: as, b :: bs => a = b && isPre as bs

/-- Python substring test (the in operator on str): pat occurs contiguously
somewhere in l. -/
def hasSubstr (pat : List Char) : List Char → Bool
  | [] => isPre pat []
  | c :: cs => isPre pat (c :: cs) || hasSubstr pat cs

/-- Lower-case every character (models Python case folding for the ASCII
data that the analyzer handles). -/
def lowerL (l : List Char) : List Char := l.map Char.toLower

/-- Case-insensitive variant of isPre (models re.IGNORECASE literals). -/
def isPreCI (pat l : List Char) : Bool := isPre (lowerL pat) (lowerL l)

/-- Nat value of a digit string. -/
def digitsVal (l : List Char) : ℕ :=
  l.foldl (fun a c => a * 10 + (c.toNat - '0'.toNat)) 0

/-- Python float() on a string captured by the regex class of digits and
dots: digits, optionally a dot and more digits.  none models ValueError
(empty string, a lone dot, or several dots). -/
def pyFloat (s : List Char) : Option ℚ :=
  match takeRun Char.isDigit s with
  | (ipart, []) => if ipart.isEmpty then none else some (digitsVal ipart)
  | (ipart, '.' :: fp) =>
    if fp.all Char.isDigit then
      if ipart.isEmpty && fp.isEmpty then none
      else some ((digitsVal ipart : ℚ) + (digitsVal fp : ℚ) / (10 : ℚ) ^ fp.length)
    else none
  | _ => none

/-- First literal of alts matching at the head of cs, with the rest of the
input (models a regex alternation of distinct literals; in the patterns
below no two alternatives can match at the same position). -/
def litAlts (alts : List (List Char)) (cs : List Char) : Option (List Char × List Char) :=
  match alts with
  | [] => none
  | a :: rest =>
    if isPre a cs then some (a, cs.drop a.length) else litAlts rest cs

/-- Case-insensitive alternation; the captured text is the slice of the
subject, as Python groups report it. -/
def litAltsCI (alts : List (List Char)) (cs : List Char) : Option (List Char × List Char) :=
  match alts with
  | [] => none
  | a :: rest =>
    if isPreCI a cs then some (cs.take a.length, cs.drop a.length) else litAltsCI rest cs

/-- Relic tier alternation of the relic-header pattern in
find_item_in_relics (src/warframe_drop_analyzer.py line 70). -/
def tierAlts : List (List Char) := ["Lith".data, "Meso".data, "Neo".data, "Axi".data]

/-- Refinement alternation of the same pattern. -/
def refinementAlts : List (List Char) :=
  ["Intact".data, "Exceptional".data, "Flawless".data, "Radiant".data]

/-- Attempt of the relic-header pattern
(Lith|Meso|Neo|Axi)\s+([A-Z]\d+)\s+Relic\s+\((Intact|Exceptional|Flawless|Radiant)\)
at the current position; on success returns the relic name built by the
code, tier ++ " " ++ code (src/warframe_drop_analyzer.py lines 70-72). -/
def relicHeaderMatchAt (cs : List Char) : Option String :=
  match litAlts tierAlts cs with
  | none => none
  | some (tier, cs1) =>
    let w1 := takeRun pyIsSpace cs1
    if w1.1.isEmpty then none
    else
      match w1.2 with
      | [] => none
      | u :: cs2 =>
        if 'A' ≤ u && u ≤ 'Z' then
          let ds := takeRun Char.isDigit cs2
          if ds.1.isEmpty then none
          else
            let w2 := takeRun pyIsSpace ds.2
            if w2.1.isEmpty then none
            else if isPre "Relic".data w2.2 then
              let w3 := takeRun pyIsSpace (w2.2.drop 5)
              if w3.1.isEmpty then none
              else
                match w3.2 with
                | '(' :: cs3 =>
                  match litAlts refinementAlts cs3 with
                  | none => none
                  | some (_, cs4) =>
                    match cs4 with
                    | ')' :: _ => some (String.mk (tier ++ [' '] ++ [u] ++ ds.1))
                    | _ => none
                | _ => none
            else none
        else none

/-- re.search of the relic-header pattern on one line: leftmost position
where the pattern matches, if any. -/
def relicHeaderSearch : List Char → Option String
  | [] => relicHeaderMatchAt []
  | c :: cs =>
    match relicHeaderMatchAt (c :: cs) with
    | some r => some r
    | none => relicHeaderSearch cs

/-- Per-relic counters gathered by find_item_in_relics
(reward_mentions / drop_mentions, src/warframe_drop_analyzer.py
lines 55-81). -/
structure RelicStatus where
  reward_mentions : ℕ
  drop_mentions : ℕ
deriving DecidableEq, Repr

/-- is_relic_vaulted (src/warframe_drop_analyzer.py lines 101-106): a relic
is vaulted when it has 4 reward mentions and 0 drop mentions. -/
def is_relic_vaulted (d : RelicStatus) : Bool :=
  d.reward_mentions == 4 && d.drop_mentions == 0

/-- Increment the reward-mention count of a name in an insertion-ordered
association list (models the defaultdict of find_item_in_relics, first
pass). -/
def bumpReward : List (String × ℕ) → String → List (String × ℕ)
  | [], n => [(n, 1)]
  | (k, v) :: rest, n =>
    if k = n then (k, v + 1) :: rest else (k, v) :: bumpReward rest n

/-- First pass of find_item_in_relics (src/warframe_drop_analyzer.py
lines 67-73): for every line containing the item name whose relic-header
pattern matches, bump that relic's reward_mentions. -/
def rewardPass (item : List Char) (lines : List (List Char)) : List (String × ℕ) :=
  lines.foldl
    (fun acc line =>
      if hasSubstr item line then
        match relicHeaderSearch line with
        | some n => bumpReward acc n
        | none => acc
      else acc)
    []

/-- Existence test of the refinement parenthetical
\((Intact|Exceptional|Flawless|Radiant)\) in a line; as the pattern is a
parenthesised alternation of literals this is a disjunction of substring
tests. -/
def refinementInLine (line : List Char) : Bool :=
  hasSubstr "(Intact)".data line || hasSubstr "(Exceptional)".data line ||
    hasSubstr "(Flawless)".data line || hasSubstr "(Radiant)".data line

/-- Second pass of find_item_in_relics (src/warframe_drop_analyzer.py
lines 76-81): count the lines holding the relic name followed by Relic,
a percent sign, and no refinement parenthetical. -/
def dropPass (relicName : String) (lines : List (List Char)) : ℕ :=
  lines.countP
    (fun line =>
      hasSubstr (relicName ++ " Relic").data line && hasSubstr ['%'] line &&
        !(refinementInLine line))

/-- The corpus snapshot held by the analyzer.  BeautifulSoup is external:
text models soup.get_text() (used by the relic queries) and raw models
str(soup) (used by find_mod_in_missions); both are opaque renderings of
the same fetched document. -/
structure Soup where
  text : String
  raw : String
deriving DecidableEq, Repr

/-- Analyzer state: self.soup is None until fetch_droptables succeeds
(src/warframe_drop_analyzer.py lines 33-35).  A loaded, non-empty soup is
modelled by some. -/
structure WDAState where
  soup : Option Soup
deriving DecidableEq, Repr

/-- find_item_in_relics (src/warframe_drop_analyzer.py lines 52-99).
Splits the text into lines, counts reward mentions per relic (first pass)
and drop mentions per discovered relic (second pass), returning the
insertion-ordered relic map.  On an uninitialized analyzer the attribute
access self.soup.get_text() raises AttributeError. -/
def find_item_in_relics (st : WDAState) (itemName : String) :
    Except PyErr (List (String × RelicStatus)) :=
  match st.soup with
  | none => .error .attributeError
  | some s =>
    let lines := splitOnNl s.text.data
    let p1 := rewardPass itemName.data lines
    .ok (p1.map (fun p => (p.1, ⟨p.2, dropPass p.1 lines⟩)))

/-- Attempt of the mission-header pattern
([^/\n]+)/([^\(\n]+)\s*\(([^\)]+)\) at the current position
(src/warframe_drop_analyzer.py line 123 and src/discord_bot.py callers).
Greedy character classes never backtrack past the delimiter that follows
them, so the match is the maximal run before each delimiter.  On success
the three captured groups and the rest of the input are returned. -/
def missionMatchAt (cs : List Char) : Option (List Char × List Char × List Char × List Char) :=
  let r1 := takeRun (fun c => !(c = '/') && !(c = '\n')) cs
  if r1.1.isEmpty then none
  else
    match r1.2 with
    | '/' :: cs1 =>
      let r2 := takeRun (fun c => !(c = '(') && !(c = '\n')) cs1
      if r2.1.isEmpty then none
      else
        match r2.2.dropWhile pyIsSpace with
        | '(' :: cs2 =>
          let r3 := takeRun (fun c => !(c = ')')) cs2
          if r3.1.isEmpty then none
          else
            match r3.2 with
            | ')' :: cs3 => some (r1.1, r2.1, r3.1, cs3)
            | _ => none
        | _ => none
    | _ => none

/-- One group produced by re.split on the mission-header pattern: the
three captured groups and the trailing content up to the next match
(the Python flat list is consumed four entries at a time, indices i..i+3,
which is exactly this shape). -/
structure MGroup where
  g1 : List Char
  g2 : List Char
  g3 : List Char
  content : List Char
deriving DecidableEq, Repr

/-- Scanning worker of re.split on the mission-header pattern: leftmost
non-overlapping matches; acc accumulates (reversed) the text before the
next match.  fuel bounds the recursion and is at least the input length at
every call, so the fuel-exhaustion branch is never taken. -/
def missionSplitGo : ℕ → List Char → List Char → List Char × List MGroup
  | _, acc, [] => (acc.reverse, [])
  | 0, acc, cs => (acc.reverse ++ cs, [])
  | fuel + 1, acc, c :: cs =>
    match missionMatchAt (c :: cs) with
    | some (g1, g2, g3, rest) =>
      let r := missionSplitGo fuel [] rest
      (acc.reverse, ⟨g1, g2, g3, r.1⟩ :: r.2)
    | none => missionSplitGo fuel (c :: acc) cs

/-- re.split of the corpus on the mission-header pattern: the text before
the first match and the list of (planet, mission, type, content) groups. -/
def missionSplit (cs : List Char) : List Char × List MGroup :=
  missionSplitGo cs.length [] cs

/-- Attempt of the rotation-header pattern Rotation ([ABC]) at the current
position (src/warframe_drop_analyzer.py lines 143 and 333). -/
def rotMatchAt (cs : List Char) : Option (Char × List Char) :=
  if isPre "Rotation ".data cs then
    match cs.drop 9 with
    | c :: rest => if c = 'A' || c = 'B' || c = 'C' then some (c, rest) else none
    | [] => none
  else none

/-- Scanning worker of re.split on the rotation-header pattern; returns
the text before the first header and the (letter, following sub-segment)
pairs.  fuel is at least the input length at every call. -/
def rotSplitGo : ℕ → List Char → List Char → List Char × List (Char × List Char)
  | _, acc, [] => (acc.reverse, [])
  | 0, acc, cs => (acc.reverse ++ cs, [])
  | fuel + 1, acc, c :: cs =>
    match rotMatchAt (c :: cs) with
    | some (l, rest) =>
      let r := rotSplitGo fuel [] rest
      (acc.reverse, (l, r.1) :: r.2)
    | none => rotSplitGo fuel (c :: acc) cs

/-- re.split of a mission's content on Rotation ([ABC]). -/
def rotSplit (cs : List Char) : List Char × List (Char × List Char) :=
  rotSplitGo cs.length [] cs

/-- One farm location, a dict built by find_relic_farm_locations
(src/warframe_drop_analyzer.py lines 165-172) or find_mod_in_missions
(lines 351-358).  relic is the key added by the analyze callers
(analyzer.py line 465, discord_bot.py line 311); it is absent (empty)
on freshly extracted records. -/
structure FarmRecord where
  mission : String
  planet : String
  type : String
  rotation : String
  rarity : String
  drop_rate : ℚ
  relic : String := ""
deriving DecidableEq, Repr, Inhabited

/-- Rarity alternation of the relic drop pattern, in source order
(Rare|Uncommon|Common|Very Common), src/warframe_drop_analyzer.py
line 158. -/
def rarityAltsRelic : List (List Char) :=
  ["Rare".data, "Uncommon".data, "Common".data, "Very Common".data]

/-- Rarity alternation of the mod drop pattern, in source order, matched
case-insensitively (src/warframe_drop_analyzer.py line 344). -/
def rarityAltsMod : List (List Char) :=
  ["Very Common".data, "Common".data, "Uncommon".data, "Rare".data,
    "Ultra Rare".data, "Legendary".data]

/-- Tail common to both drop patterns: \s*\(([0-9.]+)%\); returns the
captured number string and the rest of the input. -/
def pctTail (cs : List Char) : Option (List Char × List Char) :=
  match cs.dropWhile pyIsSpace with
  | '(' :: cs1 =>
    let num := takeRun (fun c => c.isDigit || c = '.') cs1
    if num.1.isEmpty then none
    else
      match num.2 with
      | '%' :: ')' :: cs2 => some (num.1, cs2)
      | _ => none
  | _ => none

/-- Attempt of the relic drop pattern
{relic full name}(Rare|Uncommon|Common|Very Common)\s*\(([0-9.]+)%\)
at the current position; returns the rarity and number captures and the
rest of the input. -/
def relicRewardMatchAt (full cs : List Char) : Option (List Char × List Char × List Char) :=
  if isPre full cs then
    match litAlts rarityAltsRelic (cs.drop full.length) with
    | some (rar, cs1) =>
      match pctTail cs1 with
      | some (num, rest) => some (rar, num, rest)
      | none => none
    | none => none
  else none

/-- re.finditer of the relic drop pattern over one rotation sub-segment:
all leftmost non-overlapping matches, in order.  fuel is at least the
input length at every call. -/
def relicAllMatchesGo (full : List Char) : ℕ → List Char → List (List Char × List Char)
  | _, [] => []
  | 0, _ => []
  | fuel + 1, c :: cs =>
    match relicRewardMatchAt full (c :: cs) with
    | some (rar, num, rest) => (rar, num) :: relicAllMatchesGo full fuel rest
    | none => relicAllMatchesGo full fuel cs

/-- All matches of the relic drop pattern in a sub-segment. -/
def relicAllMatches (full part : List Char) : List (List Char × List Char) :=
  relicAllMatchesGo full part.length part

/-- Record construction of the relic loop body (src/warframe_drop_analyzer.py
lines 161-173): one record per match, raising ValueError at the first
number float() cannot parse. -/
def buildRelicRecords (mission planet mtype rot : String) :
    List (List Char × List Char) → Except PyErr (List FarmRecord)
  | [] => .ok []
  | (rar, num) :: rest =>
    match pyFloat num with
    | none => .error .valueError
    | some q =>
      match buildRelicRecords mission planet mtype rot rest with
      | .error e => .error e
      | .ok rs =>
        .ok ({ mission := mission, planet := planet, type := mtype, rotation := rot,
               rarity := String.mk rar, drop_rate := q } :: rs)

/-- Search of one rotation sub-segment in the relic path
(src/warframe_drop_analyzer.py lines 152-173): guarded by the substring
test of the full relic name, then one record per finditer match. -/
def relicPartRecords (full : List Char) (mission planet mtype rot : String)
    (part : List Char) : Except PyErr (List FarmRecord) :=
  if hasSubstr full part then
    buildRelicRecords mission planet mtype rot (relicAllMatches full part)
  else .ok []

/-- Sequenced accumulation of record lists, modelling a Python loop that
appends and can raise: the first error aborts the whole traversal. -/
def exceptFlat (f : α → Except PyErr (List FarmRecord)) :
    List α → Except PyErr (List FarmRecord)
  | [] => .ok []
  | a :: as =>
    match f a with
    | .error e => .error e
    | .ok bs =>
      match exceptFlat f as with
      | .error e => .error e
      | .ok rest => .ok (bs ++ rest)

/-- Rotation loop of the relic path (src/warframe_drop_analyzer.py
lines 143-173): the content is split on the rotation headers; the segment
before the first header is searched with label Reward, each later
sub-segment with the letter of the header preceding it. -/
def relicContentRecords (full : List Char) (mission planet mtype : String)
    (content : List Char) : Except PyErr (List FarmRecord) :=
  let sp := rotSplit content
  match relicPartRecords full mission planet mtype "Reward" sp.1 with
  | .error e => .error e
  | .ok first =>
    match exceptFlat
        (fun p => relicPartRecords full mission planet mtype (String.mk [p.1]) p.2)
        sp.2 with
    | .error e => .error e
    | .ok rest => .ok (first ++ rest)

/-- Body of the mission loop of find_relic_farm_locations
(src/warframe_drop_analyzer.py lines 127-173): pseudo-planet sections
Relics, Event and Baro are skipped. -/
def relicGroupRecords (relicName : String) (g : MGroup) :
    Except PyErr (List FarmRecord) :=
  let planet := String.mk (pyStrip g.g1)
  let mission := String.mk (pyStrip g.g2)
  let mtype := String.mk (pyStrip g.g3)
  if planet = "Relics" ∨ planet = "Event" ∨ planet = "Baro" then .ok []
  else relicContentRecords (relicName ++ " Relic").data mission planet mtype g.content

/-- find_relic_farm_locations (src/warframe_drop_analyzer.py lines 108-180).
On an uninitialized analyzer the attribute access self.soup.get_text()
raises AttributeError. -/
def find_relic_farm_locations (st : WDAState) (relicName : String) :
    Except PyErr (List FarmRecord) :=
  match st.soup with
  | none => .error .attributeError
  | some s => exceptFlat (relicGroupRecords relicName) (missionSplit s.text.data).2

/-- Attempt of the mod drop pattern
{mod}\s*\|\s*(Very Common|Common|Uncommon|Rare|Ultra Rare|Legendary)\s*\(([0-9.]+)%\)
with re.IGNORECASE at the current position (src/warframe_drop_analyzer.py
line 344). -/
def modRewardMatchAt (modL cs : List Char) : Option (List Char × List Char × List Char) :=
  if isPreCI modL cs then
    match (cs.drop modL.length).dropWhile pyIsSpace with
    | '|' :: cs1 =>
      match litAltsCI rarityAltsMod (cs1.dropWhile pyIsSpace) with
      | some (rar, cs2) =>
        match pctTail cs2 with
        | some (num, rest) => some (rar, num, rest)
        | none => none
      | none => none
    | _ => none
  else none

/-- re.search of the mod drop pattern over one rotation sub-segment: the
leftmost match only (src/warframe_drop_analyzer.py line 345). -/
def modSearchFirst (modL : List Char) : List Char → Option (List Char × List Char)
  | [] => (modRewardMatchAt modL []).map (fun m => (m.1, m.2.1))
  | c :: cs =>
    match modRewardMatchAt modL (c :: cs) with
    | some (rar, num, _) => some (rar, num)
    | none => modSearchFirst modL cs

/-- All leftmost non-overlapping matches of the mod drop pattern in a
sub-segment (what re.finditer would return there); the code itself keeps
only the first.  fuel is at least the input length at every call. -/
def modAllMatchesGo (modL : List Char) : ℕ → List Char → List (List Char × List Char)
  | _, [] => []
  | 0, _ => []
  | fuel + 1, c :: cs =>
    match modRewardMatchAt modL (c :: cs) with
    | some (rar, num, rest) => (rar, num) :: modAllMatchesGo modL fuel rest
    | none => modAllMatchesGo modL fuel cs

/-- All matches of the mod drop pattern in a sub-segment. -/
def modAllMatches (modL seg : List Char) : List (List Char × List Char) :=
  modAllMatchesGo modL seg.length seg

/-- Body of the rotation loop of find_mod_in_missions
(src/warframe_drop_analyzer.py lines 336-358): at most one record per
(letter, sub-segment) pair, from the first match. -/
def modRotRecords (modL : List Char) (mission planet mtype : String) (l : Char)
    (seg : List Char) : Except PyErr (List FarmRecord) :=
  match modSearchFirst modL seg with
  | none => .ok []
  | some (rar, num) =>
    match pyFloat num with
    | none => .error .valueError
    | some q =>
      .ok [{ mission := mission, planet := planet, type := mtype,
             rotation := "Rot. " ++ String.mk [l], rarity := String.mk rar,
             drop_rate := q }]

/-- Rotation loop of the mod path (src/warframe_drop_analyzer.py
lines 333-358): the loop starts at index 1 of the re.split result, so only
the (letter, sub-segment) pairs are visited and the segment before the
first rotation header is never searched. -/
def modContentRecords (modL : List Char) (mission planet mtype : String)
    (content : List Char) : Except PyErr (List FarmRecord) :=
  exceptFlat (fun p => modRotRecords modL mission planet mtype p.1 p.2)
    (rotSplit content).2

/-- Body of the mission loop of find_mod_in_missions
(src/warframe_drop_analyzer.py lines 319-358): the skipped sections here
are Relics, Event, Baro and also Rotation (line 329). -/
def modGroupRecords (modName : String) (g : MGroup) : Except PyErr (List FarmRecord) :=
  let planet := String.mk (pyStrip g.g1)
  let mission := String.mk (pyStrip g.g2)
  let mtype := String.mk (pyStrip g.g3)
  if planet = "Relics" ∨ planet = "Event" ∨ planet = "Baro" ∨ planet = "Rotation" then
    .ok []
  else modContentRecords modName.data mission planet mtype g.content

/-- find_mod_in_missions (src/warframe_drop_analyzer.py lines 297-360).
The uninitialized state is checked here (lines 307-309): the function
prints a console warning and returns the empty list, the same value an
ordinary fruitless search returns.  The loaded path scans str(self.soup),
modelled by the raw rendering. -/
def find_mod_in_missions (st : WDAState) (modName : String) :
    Except PyErr (List FarmRecord) :=
  match st.soup with
  | none => .ok []
  | some s => exceptFlat (modGroupRecords modName) (missionSplit s.raw.data).2

/-- Modelled from the spec: case-insensitive substring occurrence used by
the Mission Filter contract of spec section 4.3 (the method
apply_mission_filters is called but defined nowhere in the repository). -/
def ciSubstr (t s : String) : Bool := hasSubstr (lowerL t.data) (lowerL s.data)

/-- Modelled from the spec: a record is excluded iff ANY exclusion term
occurs as a case-insensitive substring of its mission name, planet name,
or mission type (spec section 4.3). -/
def recordExcluded (terms : List String) (r : FarmRecord) : Bool :=
  terms.any (fun t => ciSubstr t r.mission || ciSubstr t r.planet || ciSubstr t r.type)

/-- Modelled from the spec: apply_mission_filters, the Mission Filter of
spec section 4.3.  The method is invoked on the analyzer but defined
nowhere in the repository, so this definition follows the spec words: keep
exactly the records not excluded, as a stable, order-preserving filter. -/
def apply_mission_filters (records : List FarmRecord) (terms : List String) :
    List FarmRecord :=
  records.filter (fun r => !(recordExcluded terms r))

/-- Source field of an aggregated record (spec section 3): a scalar source
for singleton groups, the ordered source list for merged groups. -/
inductive AggSources where
  | single (s : String)
  | combined (l : List String)
deriving DecidableEq, Repr

/-- Modelled from the spec: an AggregatedFarmRecord (spec section 3). -/
structure AggRecord where
  mission : String
  planet : String
  type : String
  rotation : String
  rarity : String
  drop_rate : ℚ
  sources : AggSources
deriving DecidableEq, Repr

/-- Grouping key of the Mission Aggregator: the exact
(mission, planet, rotation) triple (spec section 4.4). -/
def farmKey (r : FarmRecord) : String × String × String :=
  (r.mission, r.planet, r.rotation)

/-- Key of an aggregated record. -/
def aggKey (a : AggRecord) : String × String × String :=
  (a.mission, a.planet, a.rotation)

/-- Modelled from the spec: the combined independent-probability formula of
spec sections 3 and 4.4, over percentages: 1 - product of (1 - p_i), with
each p_i read as p_i / 100 and the result re-expressed as a percentage. -/
def combinedPct (ps : List ℚ) : ℚ :=
  100 * (1 - (ps.map (fun p => 1 - p / 100)).prod)

/-- Modelled from the spec: collapse of one non-empty group (head and tail)
per spec section 4.4.  A group of size 1 is re-emitted unchanged with a
scalar source; a larger group keeps the first-seen member's auxiliary
fields, the ordered source list, and the combined probability. -/
def aggOfGroup (h : FarmRecord) (t : List FarmRecord) : AggRecord :=
  match t with
  | [] =>
    { mission := h.mission, planet := h.planet, type := h.type,
      rotation := h.rotation, rarity := h.rarity, drop_rate := h.drop_rate,
      sources := .single h.relic }
  | _ :: _ =>
    { mission := h.mission, planet := h.planet, type := h.type,
      rotation := h.rotation, rarity := h.rarity,
      drop_rate := combinedPct ((h :: t).map FarmRecord.drop_rate),
      sources := .combined ((h :: t).map FarmRecord.relic) }

/-- First-seen insertion used to list the group keys in order. -/
def insertNew (ks : List (String × String × String)) (k : String × String × String) :
    List (String × String × String) :=
  if k ∈ ks then ks else ks ++ [k]

/-- Keys of a record list in first-seen order. -/
def keysOf (records : List FarmRecord) : List (String × String × String) :=
  records.foldl (fun ks r => insertNew ks (farmKey r)) []

/-- Modelled from the spec: aggregate_mission_drops, the Mission Aggregator
of spec section 4.4.  The method is invoked on the analyzer but defined
nowhere in the repository, so this definition follows the spec words:
group by the exact (mission, planet, rotation) triple and collapse each
group with aggOfGroup. -/
def aggregate_mission_drops (records : List FarmRecord) : List AggRecord :=
  (keysOf records).filterMap
    (fun k =>
      match records.filter (fun r => decide (farmKey r = k)) with
      | [] => none
      | h :: t => some (aggOfGroup h t))

/-- The methods the class WarframeDropAnalyzer defines
(src/warframe_drop_analyzer.py lines 30-641): neither
apply_mission_filters nor aggregate_mission_drops is among them. -/
def wdaMethodNames : List String :=
  ["__init__", "fetch_droptables", "find_item_in_relics", "is_relic_vaulted",
   "find_relic_farm_locations", "configure_mission_filters",
   "get_prime_components", "find_mod_in_missions", "analyze_mod",
   "analyze_prime_item", "analyze_complete_prime"]

/-- The call analyzer.apply_mission_filters(records, filters): Python first
looks the attribute up on the instance and class; were the method defined
it would dispatch to the Mission Filter, but the lookup fails with
AttributeError because the class defines no such method. -/
def call_apply_mission_filters (records : List FarmRecord) (filters : List String) :
    Except PyErr (List FarmRecord) :=
  if "apply_mission_filters" ∈ wdaMethodNames then
    .ok (apply_mission_filters records filters)
  else .error .attributeError

/-- The call analyzer.aggregate_mission_drops(records): as above, the
attribute lookup fails because the class defines no such method. -/
def call_aggregate_mission_drops (records : List FarmRecord) :
    Except PyErr (List AggRecord) :=
  if "aggregate_mission_drops" ∈ wdaMethodNames then
    .ok (aggregate_mission_drops records)
  else .error .attributeError

/-- The relics an analyze path treats as active: the ones
is_relic_vaulted rejects. -/
def activeOf (relics : List (String × RelicStatus)) : List (String × RelicStatus) :=
  relics.filter (fun p => !(is_relic_vaulted p.2))

/-- Farm collection loop shared by analyze_prime_item
(src/warframe_drop_analyzer.py lines 460-466) and
analyze_single_component (src/discord_bot.py lines 302-314): the farms of
every active relic, each record tagged with its relic. -/
def collectActiveFarms (st : WDAState) (active : List (String × RelicStatus)) :
    Except PyErr (List FarmRecord) :=
  exceptFlat
    (fun p =>
      match find_relic_farm_locations st p.1 with
      | .error e => .error e
      | .ok farms => .ok (farms.map (fun r => { r with relic := p.1 })))
    active

/-- analyze_mod (src/warframe_drop_analyzer.py lines 362-413).  The
interactive configure_mission_filters result is the filtersInput
parameter.  Printing is not modelled; the value of interest is normal
return versus raised exception. -/
def analyze_mod (st : WDAState) (modName : String) (filtersInput : List String) :
    Except PyErr Unit :=
  match find_mod_in_missions st modName with
  | .error e => .error e
  | .ok allMissions =>
    if allMissions.isEmpty then .ok ()
    else
      match call_apply_mission_filters allMissions filtersInput with
      | .error e => .error e
      | .ok missions => if missions.isEmpty then .ok () else .ok ()

/-- analyze_prime_item (src/warframe_drop_analyzer.py lines 415-516).
Filters are configured only when show_header is true; the filter method is
called only when the filter list is non-empty (line 475), the aggregation
method unconditionally once farm locations exist (line 479). -/
def analyze_prime_item (st : WDAState) (itemName : String)
    (filtersInput : List String) (showHeader : Bool) : Except PyErr Unit :=
  match find_item_in_relics st itemName with
  | .error e => .error e
  | .ok relics =>
    if relics.isEmpty then .ok ()
    else
      let active := activeOf relics
      if active.isEmpty then .ok ()
      else
        match collectActiveFarms st active with
        | .error e => .error e
        | .ok allFarms =>
          if allFarms.isEmpty then .ok ()
          else
            let filters := if showHeader then filtersInput else []
            match
              (if filters.isEmpty then .ok allFarms
               else call_apply_mission_filters allFarms filters) with
            | .error e => .error e
            | .ok farms2 =>
              match call_aggregate_mission_drops farms2 with
              | .error e => .error e
              | .ok _ => .ok ()

/-- analyze_single_component (src/discord_bot.py lines 275-338).  The
filter method is called only when the filter list is non-empty (line 317);
the aggregation method is called unconditionally once an active relic
exists (line 320), even with an empty farm list.  The per-record
item-rarity display metadata (lines 306-313) does not affect control flow
and is not modelled. -/
def analyze_single_component (st : WDAState) (itemName : String)
    (filters : List String) : Except PyErr Unit :=
  match find_item_in_relics st itemName with
  | .error e => .error e
  | .ok relics =>
    if relics.isEmpty then .ok ()
    else
      let active := activeOf relics
      if active.isEmpty then .ok ()
      else
        match collectActiveFarms st active with
        | .error e => .error e
        | .ok allFarms =>
          match
            (if filters.isEmpty then .ok allFarms
             else call_apply_mission_filters allFarms filters) with
          | .error e => .error e
          | .ok farms2 =>
            match call_aggregate_mission_drops farms2 with
            | .error e => .error e
            | .ok _ => .ok ()

/-- A match of a literal prefix is exactly a decomposition of the subject. -/
theorem isPre_iff (p : List Char) : ∀ l, isPre p l = true ↔ ∃ t, l = p ++ t := by
  induction p with
  | nil => intro l; simp [isPre]
  | cons a as ih =>
    intro l
    cases l with
    | nil => simp [isPre]
    | cons b bs =>
      simp only [isPre, Bool.and_eq_true, decide_eq_true_eq, ih, List.cons_append]
      constructor
      · rintro ⟨rfl, t, rfl⟩; exact ⟨t, rfl⟩
      · rintro ⟨t, h⟩
        cases h
        exact ⟨rfl, t, rfl⟩

/-- The substring test is exactly a three-way decomposition of the subject. -/
theorem hasSubstr_iff (p : List Char) : ∀ l, hasSubstr p l = true ↔ ∃ s t, l = s ++ p ++ t := by
  intro l
  induction l with
  | nil =>
    simp only [hasSubstr, isPre_iff]
    constructor
    · rintro ⟨t, h⟩
      exact ⟨[], t, by simpa using h⟩
    · rintro ⟨s, t, h⟩
      rcases List.append_eq_nil.1 h.symm with ⟨h1, h2⟩
      rcases List.append_eq_nil.1 h1 with ⟨h3, h4⟩
      exact ⟨[], by simp [h4]⟩
  | cons c cs ih =>
    simp only [hasSubstr, Bool.or_eq_true, isPre_iff, ih]
    constructor
    · rintro (⟨t, h⟩ | ⟨s, t, h⟩)
      · exact ⟨[], t, by simpa using h⟩
      · exact ⟨c :: s, t, by simp [h]⟩
    · rintro ⟨s, t, h⟩
      cases s with
      | nil => exact Or.inl ⟨t, by simpa using h⟩
      | cons c2 s2 =>
        right
        rcases List.cons_eq_cons.1 (by simpa using h) with ⟨rfl, h2⟩
        exact ⟨s2, t, by simpa [List.append_assoc] using h2⟩

/-- A parsed percentage is never negative: the number capture has no sign. -/
theorem pyFloat_nonneg (s : List Char) (q : ℚ) (h : pyFloat s = some q) : 0 ≤ q := by
  unfold pyFloat at h
  split at h
  · split at h
    · exact absurd h (by simp)
    · rcases Option.some_inj.1 h with rfl
      positivity
  · split at h
    · split at h
      · exact absurd h (by simp)
      · rcases Option.some_inj.1 h with rfl
        positivity
    · exact absurd h (by simp)
  · exact absurd h (by simp)

/-- Membership in a sequenced accumulation: every output record comes from
the successful image of some input element. -/
theorem exceptFlat_mem {α : Type} (f : α → Except PyErr (List FarmRecord)) :
    ∀ (l : List α) (rs : List FarmRecord), exceptFlat f l = .ok rs →
      ∀ r ∈ rs, ∃ a ∈ l, ∃ bs, f a = .ok bs ∧ r ∈ bs := by
  intro l
  induction l with
  | nil =>
    intro rs h r hr
    simp only [exceptFlat, Except.ok.injEq] at h
    subst h
    simp at hr
  | cons a as ih =>
    intro rs h r hr
    rw [exceptFlat] at h
    split at h
    · exact absurd h (by simp)
    next bs hfa =>
      split at h
      · exact absurd h (by simp)
      next rest hrest =>
        rcases Except.ok.injEq .. ▸ h with rfl
        rcases List.mem_append.1 hr with h1 | h2
        · exact ⟨a, by simp, bs, hfa, h1⟩
        · rcases ih rest hrest r h2 with ⟨a2, ha2, bs2, hfa2, hr2⟩
          exact ⟨a2, by simp [ha2], bs2, hfa2, hr2⟩

/-- Every record the relic loop body builds carries the surrounding
mission fields, the rotation label it was called with, and a parsed,
non-negative drop rate. -/
theorem buildRelicRecords_mem (m p t rot : String) :
    ∀ (ms : List (List Char × List Char)) (rs : List FarmRecord),
      buildRelicRecords m p t rot ms = .ok rs →
      ∀ r ∈ rs, r.mission = m ∧ r.planet = p ∧ r.type = t ∧ r.rotation = rot ∧
        0 ≤ r.drop_rate := by
  intro ms
  induction ms with
  | nil =>
    intro rs h r hr
    simp only [buildRelicRecords, Except.ok.injEq] at h
    subst h
    simp at hr
  | cons mt rest ih =>
    intro rs h r hr
    rw [buildRelicRecords] at h
    split at h
    · exact absurd h (by simp)
    next q hq =>
      split at h
      · exact absurd h (by simp)
      next rs2 hrs2 =>
        rcases Except.ok.injEq .. ▸ h with rfl
        rcases List.mem_cons.1 hr with h1 | h2
        · subst h1
          exact ⟨rfl, rfl, rfl, rfl, pyFloat_nonneg _ _ hq⟩
        · exact ih rs2 hrs2 r h2

/-- The relic loop body emits exactly one record per match it is given. -/
theorem buildRelicRecords_length (m p t rot : String) :
    ∀ (ms : List (List Char × List Char)) (rs : List FarmRecord),
      buildRelicRecords m p t rot ms = .ok rs → rs.length = ms.length := by
  intro ms
  induction ms with
  | nil =>
    intro rs h
    simp only [buildRelicRecords, Except.ok.injEq] at h
    subst h
    rfl
  | cons mt rest ih =>
    intro rs h
    rw [buildRelicRecords] at h
    split at h
    · exact absurd h (by simp)
    split at h
    · exact absurd h (by simp)
    next rs2 hrs2 =>
      rcases Except.ok.injEq .. ▸ h with rfl
      simp [ih rs2 hrs2]

/-- A successful pattern attempt starts with the literal target. -/
theorem relicRewardMatchAt_isPre (full cs : List Char) (x : List Char × List Char × List Char)
    (h : relicRewardMatchAt full cs = some x) : isPre full cs = true := by
  by_contra hf
  simp only [relicRewardMatchAt, Bool.not_eq_true] at h hf
  rw [hf] at h
  simp at h

/-- Where the target name does not occur at all, the finditer scan finds
nothing. -/
theorem relicAllMatchesGo_nil (full : List Char) :
    ∀ (cs : List Char) (fuel : ℕ), hasSubstr full cs = false →
      relicAllMatchesGo full fuel cs = [] := by
  intro cs
  induction cs with
  | nil => intro fuel _; cases fuel <;> rfl
  | cons c cs2 ih =>
    intro fuel h
    rw [hasSubstr] at h
    rcases Bool.or_eq_false_iff.1 h with ⟨h1, h2⟩
    cases fuel with
    | zero => rfl
    | succ f =>
      rw [relicAllMatchesGo]
      split
      next x hx => exact absurd (relicRewardMatchAt_isPre _ _ _ hx) (by simp [h1])
      · exact ih f h2

/-- The relic sub-segment search emits one record per finditer match,
aborting with ValueError at the first unparsable number; stated as an
equality of mapped outcomes so that the count is determined for every
input. -/
def relicLenOutcome : List (List Char × List Char) → Except PyErr ℕ
  | [] => .ok 0
  | (_, num) :: rest =>
    match pyFloat num with
    | none => .error .valueError
    | some _ =>
      match relicLenOutcome rest with
      | .error e => .error e
      | .ok n => .ok (n + 1)

/-- The mod sub-segment search keeps at most the first match: its record
count is 0 or 1 and never sees matches after the first. -/
def modLenOutcome : List (List Char × List Char) → Except PyErr ℕ
  | [] => .ok 0
  | (_, num) :: _ =>
    match pyFloat num with
    | none => .error .valueError
    | some _ => .ok 1

/-- The relic loop outcome has exactly the length outcome of its match
list. -/
theorem buildRelicRecords_map_length (m p t rot : String) :
    ∀ ms : List (List Char × List Char),
      (buildRelicRecords m p t rot ms).map List.length = relicLenOutcome ms := by
  intro ms
  induction ms with
  | nil => rfl
  | cons mt rest ih =>
    rw [buildRelicRecords, relicLenOutcome]
    split
    · rfl
    · rw [← ih]
      cases hb : buildRelicRecords m p t rot rest <;> simp [hb, Except.map]

/-- Field and sign invariant of the relic sub-segment search. -/
theorem relicPartRecords_mem (full : List Char) (m p t rot : String) (part : List Char)
    (rs : List FarmRecord) (h : relicPartRecords full m p t rot part = .ok rs) :
    ∀ r ∈ rs, r.mission = m ∧ r.planet = p ∧ r.type = t ∧ r.rotation = rot ∧
      0 ≤ r.drop_rate := by
  rw [relicPartRecords] at h
  split at h
  · exact buildRelicRecords_mem m p t rot _ rs h
  · rcases Except.ok.injEq .. ▸ h with rfl
    intro r hr
    simp at hr

/-- The relic sub-segment search emits one record per finditer match. -/
theorem relicPartRecords_map_length (full : List Char) (m p t rot : String)
    (part : List Char) :
    (relicPartRecords full m p t rot part).map List.length =
      relicLenOutcome (relicAllMatches full part) := by
  rw [relicPartRecords]
  split
  · exact buildRelicRecords_map_length m p t rot _
  next hna =>
    rw [relicAllMatches, relicAllMatchesGo_nil full part part.length (by simpa using hna)]
    rfl

/-- Field and sign invariant of the relic rotation loop. -/
theorem relicContentRecords_mem (full : List Char) (m p t : String) (content : List Char)
    (rs : List FarmRecord) (h : relicContentRecords full m p t content = .ok rs) :
    ∀ r ∈ rs, r.mission = m ∧ r.planet = p ∧ r.type = t ∧ 0 ≤ r.drop_rate := by
  rw [relicContentRecords] at h
  split at h
  · exact absurd h (by simp)
  next first hfirst =>
    split at h
    · exact absurd h (by simp)
    next rest hrest =>
      rcases Except.ok.injEq .. ▸ h with rfl
      intro r hr
      rcases List.mem_append.1 hr with h1 | h2
      · rcases relicPartRecords_mem _ _ _ _ _ _ _ hfirst r h1 with ⟨e1, e2, e3, _, e5⟩
        exact ⟨e1, e2, e3, e5⟩
      · rcases exceptFlat_mem _ _ _ hrest r h2 with ⟨pr, _, bs, hbs, hrbs⟩
        rcases relicPartRecords_mem _ _ _ _ _ _ _ hbs r hrbs with ⟨e1, e2, e3, _, e5⟩
        exact ⟨e1, e2, e3, e5⟩

/-- Planet and sign invariant of the relic mission-loop body: skipped
pseudo-planets contribute nothing, every emitted record carries the
group's stripped planet. -/
theorem relicGroupRecords_mem (name : String) (g : MGroup) (rs : List FarmRecord)
    (h : relicGroupRecords name g = .ok rs) :
    ∀ r ∈ rs, r.planet ≠ "Relics" ∧ r.planet ≠ "Event" ∧ r.planet ≠ "Baro" ∧
      0 ≤ r.drop_rate := by
  rw [relicGroupRecords] at h
  split at h
  · rcases Except.ok.injEq .. ▸ h with rfl
    intro r hr
    simp at hr
  next hskip =>
    push_neg at hskip
    intro r hr
    rcases relicContentRecords_mem _ _ _ _ _ _ h r hr with ⟨_, e2, _, e5⟩
    rw [e2]
    exact ⟨hskip.1, hskip.2.1, hskip.2.2, e5⟩

/-- Planet and sign invariant of find_relic_farm_locations. -/
theorem find_relic_farm_locations_mem (st : WDAState) (name : String)
    (rs : List FarmRecord) (h : find_relic_farm_locations st name = .ok rs) :
    ∀ r ∈ rs, r.planet ≠ "Relics" ∧ r.planet ≠ "Event" ∧ r.planet ≠ "Baro" ∧
      0 ≤ r.drop_rate := by
  rw [find_relic_farm_locations] at h
  split at h
  · exact absurd h (by simp)
  intro r hr
  rcases exceptFlat_mem _ _ _ h r hr with ⟨g, _, bs, hbs, hrbs⟩
  exact relicGroupRecords_mem name g bs hbs r hrbs

/-- The mod pattern cannot match at the end of the input: the pipe
separator and the percentage are missing. -/
theorem modRewardMatchAt_nil (modL : List Char) : modRewardMatchAt modL [] = none := by
  rw [modRewardMatchAt]
  split
  · cases modL <;> simp_all [isPreCI, lowerL, isPre]
  · rfl

/-- re.search is the head of the finditer match list. -/
theorem modSearchFirst_eq_head (modL : List Char) :
    ∀ (cs : List Char) (fuel : ℕ), cs.length ≤ fuel →
      modSearchFirst modL cs = ((modAllMatchesGo modL fuel cs).head?) := by
  intro cs
  induction cs with
  | nil =>
    intro fuel _
    cases fuel <;> simp [modSearchFirst, modAllMatchesGo, modRewardMatchAt_nil]
  | cons c cs2 ih =>
    intro fuel hf
    cases fuel with
    | zero => simp at hf
    | succ f =>
      rw [modSearchFirst, modAllMatchesGo]
      split
      next rar num rest hm => simp [hm]
      next hm =>
        exact ih f (by simpa using hf)

/-- Field, rotation-label and sign invariant of the mod rotation-loop
body. -/
theorem modRotRecords_mem (modL : List Char) (m p t : String) (l : Char)
    (seg : List Char) (rs : List FarmRecord)
    (h : modRotRecords modL m p t l seg = .ok rs) :
    ∀ r ∈ rs, r.mission = m ∧ r.planet = p ∧ r.type = t ∧
      r.rotation = "Rot. " ++ String.mk [l] ∧ 0 ≤ r.drop_rate := by
  rw [modRotRecords] at h
  split at h
  · rcases Except.ok.injEq .. ▸ h with rfl
    intro r hr
    simp at hr
  split at h
  · exact absurd h (by simp)
  next q hq =>
    rcases Except.ok.injEq .. ▸ h with rfl
    intro r hr
    rcases List.mem_singleton.1 hr with rfl
    exact ⟨rfl, rfl, rfl, rfl, pyFloat_nonneg _ _ hq⟩

/-- Field and sign invariant of the mod rotation loop. -/
theorem modContentRecords_mem (modL : List Char) (m p t : String) (content : List Char)
    (rs : List FarmRecord) (h : modContentRecords modL m p t content = .ok rs) :
    ∀ r ∈ rs, r.mission = m ∧ r.planet = p ∧ r.type = t ∧ 0 ≤ r.drop_rate := by
  rw [modContentRecords] at h
  intro r hr
  rcases exceptFlat_mem _ _ _ h r hr with ⟨pr, _, bs, hbs, hrbs⟩
  rcases modRotRecords_mem _ _ _ _ _ _ _ hbs r hrbs with ⟨e1, e2, e3, _, e5⟩
  exact ⟨e1, e2, e3, e5⟩

/-- Planet and sign invariant of the mod mission-loop body, with the
fourth skipped section Rotation. -/
theorem modGroupRecords_mem (name : String) (g : MGroup) (rs : List FarmRecord)
    (h : modGroupRecords name g = .ok rs) :
    ∀ r ∈ rs, r.planet ≠ "Relics" ∧ r.planet ≠ "Event" ∧ r.planet ≠ "Baro" ∧
      r.planet ≠ "Rotation" ∧ 0 ≤ r.drop_rate := by
  rw [modGroupRecords] at h
  split at h
  · rcases Except.ok.injEq .. ▸ h with rfl
    intro r hr
    simp at hr
  next hskip =>
    push_neg at hskip
    intro r hr
    rcases modContentRecords_mem _ _ _ _ _ _ h r hr with ⟨_, e2, _, e5⟩
    rw [e2]
    exact ⟨hskip.1, hskip.2.1, hskip.2.2.1, hskip.2.2.2, e5⟩

/-- Planet and sign invariant of find_mod_in_missions. -/
theorem find_mod_in_missions_mem (st : WDAState) (name : String)
    (rs : List FarmRecord) (h : find_mod_in_missions st name = .ok rs) :
    ∀ r ∈ rs, r.planet ≠ "Relics" ∧ r.planet ≠ "Event" ∧ r.planet ≠ "Baro" ∧
      r.planet ≠ "Rotation" ∧ 0 ≤ r.drop_rate := by
  rw [find_mod_in_missions] at h
  split at h
  · rcases Except.ok.injEq .. ▸ h with rfl
    intro r hr
    simp at hr
  intro r hr
  rcases exceptFlat_mem _ _ _ h r hr with ⟨g, _, bs, hbs, hrbs⟩
  exact modGroupRecords_mem name g bs hbs r hrbs

/-- The mod rotation-loop body keeps only the head of the finditer match
list. -/
theorem modRotRecords_map_length (modL : List Char) (m p t : String) (l : Char)
    (seg : List Char) :
    (modRotRecords modL m p t l seg).map List.length =
      modLenOutcome (modAllMatches modL seg) := by
  rw [modRotRecords, modSearchFirst_eq_head modL seg seg.length (le_refl _)]
  rw [show modAllMatchesGo modL seg.length seg = modAllMatches modL seg from rfl]
  cases hms : modAllMatches modL seg with
  | nil => rfl
  | cons mt rest =>
    obtain ⟨rar, num⟩ := mt
    rw [modLenOutcome]
    simp only [List.head?]
    split <;> rfl

/-- When no rotation header occurs, the rotation split returns the whole
input as the leading segment. -/
theorem rotSplitGo_pairs_nil :
    ∀ (cs : List Char) (fuel : ℕ) (acc : List Char),
      (rotSplitGo fuel acc cs).2 = [] →
      (rotSplitGo fuel acc cs).1 = acc.reverse ++ cs := by
  intro cs
  induction cs with
  | nil => intro fuel acc _; cases fuel <;> simp [rotSplitGo]
  | cons c cs2 ih =>
    intro fuel acc h
    cases fuel with
    | zero => rfl
    | succ f =>
      rw [rotSplitGo] at h ⊢
      split at h
      · simp at h
      · rw [ih f (c :: acc) h]
        simp

/-- Head of a non-empty list with the Inhabited default. -/
theorem headI_mem_of_ne_nil {α : Type} [Inhabited α] {l : List α} (h : l ≠ []) :
    l.headI ∈ l := by
  cases l with
  | nil => exact absurd rfl h
  | cons a as => simp [List.headI]

/-- Membership of the first-seen key fold. -/
theorem mem_foldl_insertNew :
    ∀ (rs : List FarmRecord) (acc : List (String × String × String))
      (k : String × String × String),
      k ∈ rs.foldl (fun ks r => insertNew ks (farmKey r)) acc ↔
        k ∈ acc ∨ ∃ r ∈ rs, farmKey r = k := by
  intro rs
  induction rs with
  | nil => intro acc k; simp
  | cons r rs2 ih =>
    intro acc k
    rw [List.foldl_cons, ih]
    constructor
    · rintro (hacc | hex)
      · rw [insertNew] at hacc
        split at hacc
        · exact Or.inl hacc
        · rcases List.mem_append.1 hacc with h1 | h2
          · exact Or.inl h1
          · exact Or.inr ⟨r, by simp, by simpa using (List.mem_singleton.1 h2).symm⟩
      · rcases hex with ⟨r2, hr2, hk2⟩
        exact Or.inr ⟨r2, by simp [hr2], hk2⟩
    · rintro (hacc | ⟨r2, hr2, hk2⟩)
      · left
        rw [insertNew]
        split
        · exact hacc
        · exact List.mem_append.2 (Or.inl hacc)
      · rcases List.mem_cons.1 hr2 with rfl | h2
        · left
          rw [insertNew]
          split
          next hmem => exact hk2 ▸ hmem
          · exact List.mem_append.2 (Or.inr (by simp [hk2]))
        · exact Or.inr ⟨r2, h2, hk2⟩

/-- A key occurs in keysOf exactly when some record carries it. -/
theorem mem_keysOf (records : List FarmRecord) (k : String × String × String) :
    k ∈ keysOf records ↔ ∃ r ∈ records, farmKey r = k := by
  rw [keysOf, mem_foldl_insertNew]
  simp

/-- insertNew preserves distinctness. -/
theorem insertNew_nodup (ks : List (String × String × String))
    (k : String × String × String) (h : ks.Nodup) : (insertNew ks k).Nodup := by
  rw [insertNew]
  split
  · exact h
  next hnm =>
    refine List.Nodup.append h (List.nodup_singleton k) ?_
    intro a ha hb
    rcases List.mem_singleton.1 hb with rfl
    exact hnm ha

/-- The first-seen key list is duplicate-free. -/
theorem keysOf_nodup (records : List FarmRecord) : (keysOf records).Nodup := by
  rw [keysOf]
  have h : ∀ (rs : List FarmRecord) (acc : List (String × String × String)),
      acc.Nodup → (rs.foldl (fun ks r => insertNew ks (farmKey r)) acc).Nodup := by
    intro rs
    induction rs with
    | nil => intro acc ha; simpa using ha
    | cons r rs2 ih =>
      intro acc ha
      exact ih _ (insertNew_nodup acc (farmKey r) ha)
  exact h records [] List.nodup_nil

/-- The collapse of a group keys like its first member. -/
theorem aggOfGroup_key (h : FarmRecord) (t : List FarmRecord) :
    aggKey (aggOfGroup h t) = farmKey h := by
  cases t <;> rfl

/-- The head of a non-empty filter result satisfies the filter. -/
theorem head_of_filter_eq_cons {p : FarmRecord → Bool} {records : List FarmRecord}
    {h2 : FarmRecord} {t2 : List FarmRecord}
    (hfil : records.filter p = h2 :: t2) : p h2 = true := by
  have hm : h2 ∈ records.filter p := by rw [hfil]; simp
  exact (List.mem_filter.1 hm).2

/-- Keys absent from the key list contribute nothing to the aggregate
filtered at that key. -/
theorem aggFilter_nil_of_not_mem :
    ∀ (ks : List (String × String × String)) (records : List FarmRecord)
      (k : String × String × String), k ∉ ks →
      ((ks.filterMap (fun k2 =>
          match records.filter (fun r => decide (farmKey r = k2)) with
          | [] => none
          | h2 :: t2 => some (aggOfGroup h2 t2))).filter
        (fun a => decide (aggKey a = k))) = [] := by
  intro ks
  induction ks with
  | nil => intro records k _; rfl
  | cons k2 ks2 ih =>
    intro records k hk
    have hk2 : k ≠ k2 := fun h => hk (h ▸ List.mem_cons_self k2 ks2)
    have hks2 : k ∉ ks2 := fun h => hk (List.mem_cons_of_mem k2 h)
    rw [List.filterMap_cons]
    split
    · exact ih records k hks2
    next a hmt =>
      split at hmt
      · exact absurd hmt (by simp)
      next h3 t3 hfil =>
        rcases Option.some_inj.1 hmt with rfl
        have hkey : farmKey h3 = k2 := by
          simpa using head_of_filter_eq_cons hfil
        rw [List.filter_cons]
        have : decide (aggKey (aggOfGroup h3 t3) = k) = false := by
          simp [aggOfGroup_key, hkey]
          exact fun h => hk2 h.symm
        rw [this]
        simp only [Bool.false_eq_true, if_false]
        exact ih records k hks2

/-- Filtering the aggregate at a key present in a duplicate-free key list
yields exactly the collapse of that key's group. -/
theorem aggFilter_of_mem :
    ∀ (ks : List (String × String × String)) (records : List FarmRecord)
      (k : String × String × String) (h : FarmRecord) (t : List FarmRecord),
      ks.Nodup → k ∈ ks →
      records.filter (fun r => decide (farmKey r = k)) = h :: t →
      ((ks.filterMap (fun k2 =>
          match records.filter (fun r => decide (farmKey r = k2)) with
          | [] => none
          | h2 :: t2 => some (aggOfGroup h2 t2))).filter
        (fun a => decide (aggKey a = k))) = [aggOfGroup h t] := by
  intro ks
  induction ks with
  | nil => intro records k h t _ hmem; simp at hmem
  | cons k2 ks2 ih =>
    intro records k h t hnd hmem hfil
    rcases List.mem_cons.1 hmem with rfl | hmem2
    · rw [List.filterMap_cons, hfil]
      have hkey : farmKey h = k := by
        simpa using head_of_filter_eq_cons hfil
      rw [List.filter_cons]
      have hdec : decide (aggKey (aggOfGroup h t) = k) = true := by
        simp [aggOfGroup_key, hkey]
      rw [hdec]
      simp only [if_true]
      rw [aggFilter_nil_of_not_mem ks2 records k (List.nodup_cons.1 hnd).1]
    · have hk2 : k ≠ k2 := by
        rintro rfl
        exact (List.nodup_cons.1 hnd).1 hmem2
      rw [List.filterMap_cons]
      split
      · exact ih records k h t (List.nodup_cons.1 hnd).2 hmem2 hfil
      next a hmt =>
        split at hmt
        · exact absurd hmt (by simp)
        next h3 t3 hfil3 =>
          rcases Option.some_inj.1 hmt with rfl
          have hkey3 : farmKey h3 = k2 := by
            simpa using head_of_filter_eq_cons hfil3
          rw [List.filter_cons]
          have : decide (aggKey (aggOfGroup h3 t3) = k) = false := by
            simp [aggOfGroup_key, hkey3]
            exact fun h => hk2 h.symm
          rw [this]
          simp only [Bool.false_eq_true, if_false]
          exact ih records k h t (List.nodup_cons.1 hnd).2 hmem2 hfil

/-- Attribute lookup of apply_mission_filters on the analyzer fails: the
name is not among the class methods. -/
theorem call_apply_err (records : List FarmRecord) (filters : List String) :
    call_apply_mission_filters records filters = .error .attributeError := by
  rw [call_apply_mission_filters]
  split
  next hmem => exact absurd hmem (by decide)
  · rfl

/-- Attribute lookup of aggregate_mission_drops on the analyzer fails: the
name is not among the class methods. -/
theorem call_agg_err (records : List FarmRecord) :
    call_aggregate_mission_drops records = .error .attributeError := by
  rw [call_aggregate_mission_drops]
  split
  next hmem => exact absurd hmem (by decide)
  · rfl

/-- A list is non-empty exactly when isEmpty is false. -/
theorem isEmpty_false_of_ne_nil {α : Type} {l : List α} (h : l ≠ []) :
    l.isEmpty = false := by
  cases l with
  | nil => exact absurd rfl h
  | cons a as => rfl

/-- Occurrence of one string in another as a contiguous, case-sensitive
substring, stated as a decomposition. -/
def OccursIn (t s : String) : Prop := ∃ pre post, s.data = pre ++ t.data ++ post

/-- Occurrence of one string in another as a contiguous case-insensitive
substring, stated as a decomposition of the lower-cased subject. -/
def CIOccurs (t s : String) : Prop :=
  ∃ pre post, lowerL s.data = pre ++ lowerL t.data ++ post

/-- The Boolean case-insensitive substring test decides CIOccurs. -/
theorem ciSubstr_iff (t s : String) : ciSubstr t s = true ↔ CIOccurs t s := by
  rw [ciSubstr, hasSubstr_iff]
  rfl

/-- The exclusion test decides the existential exclusion contract. -/
theorem recordExcluded_iff (terms : List String) (r : FarmRecord) :
    recordExcluded terms r = true ↔
      ∃ t ∈ terms, CIOccurs t r.mission ∨ CIOccurs t r.planet ∨ CIOccurs t r.type := by
  rw [recordExcluded, List.any_eq_true]
  constructor
  · rintro ⟨t, ht, hb⟩
    rcases Bool.or_eq_true .. ▸ hb with h1 | h2
    · rcases Bool.or_eq_true .. ▸ h1 with h1a | h1b
      · exact ⟨t, ht, Or.inl ((ciSubstr_iff t r.mission).1 h1a)⟩
      · exact ⟨t, ht, Or.inr (Or.inl ((ciSubstr_iff t r.planet).1 h1b))⟩
    · exact ⟨t, ht, Or.inr (Or.inr ((ciSubstr_iff t r.type).1 h2))⟩
  · rintro ⟨t, ht, h | h | h⟩
    · exact ⟨t, ht, by simp [(ciSubstr_iff t r.mission).2 h]⟩
    · exact ⟨t, ht, by simp [(ciSubstr_iff t r.planet).2 h]⟩
    · exact ⟨t, ht, by simp [(ciSubstr_iff t r.type).2 h]⟩

/-- C2: is_relic_vaulted returns true exactly when reward_mentions is 4
and drop_mentions is 0; every other combination of the two counters
yields false, classifying the relic active. -/
theorem claim_C2 : ∀ d : RelicStatus,
    is_relic_vaulted d = true ↔ (d.reward_mentions = 4 ∧ d.drop_mentions = 0) := by
  intro d
  simp [is_relic_vaulted]

/-- C5: apply_mission_filters with an empty exclusion list returns its
input list unchanged, every record intact and in the same order. -/
theorem claim_C5 : ∀ records : List FarmRecord,
    apply_mission_filters records [] = records := by
  intro records
  simp [apply_mission_filters, recordExcluded]

/-- C4: with a non-empty exclusion list, a record of the input is removed
by apply_mission_filters exactly when some term occurs case-insensitively
in its mission, planet or type; in particular the term Spy removes every
record whose type contains Spy, spy or SPY. -/
theorem claim_C4 :
    (∀ (records : List FarmRecord) (terms : List String), terms ≠ [] →
      ∀ r ∈ records,
        (r ∉ apply_mission_filters records terms ↔
          ∃ t ∈ terms,
            CIOccurs t r.mission ∨ CIOccurs t r.planet ∨ CIOccurs t r.type)) ∧
    (∀ (records : List FarmRecord) (terms : List String) (r : FarmRecord),
      "Spy" ∈ terms → r ∈ records →
      (OccursIn "Spy" r.type ∨ OccursIn "spy" r.type ∨ OccursIn "SPY" r.type) →
      r ∉ apply_mission_filters records terms) := by
  constructor
  · intro records terms _ r hr
    rw [← recordExcluded_iff]
    constructor
    · intro hnot
      cases hrec : recordExcluded terms r with
      | true => rfl
      | false =>
        exfalso
        apply hnot
        rw [apply_mission_filters, List.mem_filter]
        exact ⟨hr, by simp [hrec]⟩
    · intro hexc hmem
      rw [apply_mission_filters, List.mem_filter, hexc] at hmem
      simp at hmem
  · intro records terms r hspy hr hocc
    have hci : CIOccurs "Spy" r.type := by
      rcases hocc with ⟨pre, post, h⟩ | ⟨pre, post, h⟩ | ⟨pre, post, h⟩ <;>
        · refine ⟨lowerL pre, lowerL post, ?_⟩
          rw [h]
          simp only [lowerL, List.map_append, List.append_assoc]
          try congr 2
          try decide
    intro hmem
    rw [apply_mission_filters, List.mem_filter,
      (recordExcluded_iff terms r).2 ⟨"Spy", hspy, Or.inr (Or.inr hci)⟩] at hmem
    simp at hmem

/-- Record used by the filter witness: its type contains SPY in capitals. -/
def rSpyW : FarmRecord :=
  { mission := "Alpha", planet := "Mercury", type := "SPY vault", rotation := "A",
    rarity := "Rare", drop_rate := 5 }

/-- Witness for C4: on the one-record list and the one-term list Spy, the
removal equivalence holds and the capitalised SPY type is removed. -/
theorem claim_C4_witness :
    (["Spy"] : List String) ≠ [] ∧ rSpyW ∈ [rSpyW] ∧
    (rSpyW ∉ apply_mission_filters [rSpyW] ["Spy"] ↔
      ∃ t ∈ ["Spy"],
        CIOccurs t rSpyW.mission ∨ CIOccurs t rSpyW.planet ∨ CIOccurs t rSpyW.type) ∧
    rSpyW ∉ apply_mission_filters [rSpyW] ["Spy"] :=
  ⟨by decide, by decide,
   claim_C4.1 [rSpyW] ["Spy"] (by decide) rSpyW (by decide),
   claim_C4.2 [rSpyW] ["Spy"] rSpyW (by decide) (by decide)
     (Or.inr (Or.inr ⟨[], " vault".data, by decide⟩))⟩

/-- C6 (amended): before a corpus snapshot is loaded, find_item_in_relics
and find_relic_farm_locations raise AttributeError from the attribute
access on None, and find_mod_in_missions returns the empty list, the very
value an ordinary fruitless query returns; no query produces a dedicated
not-ready report. -/
theorem claim_C6 :
    (∀ itemName : String,
      find_item_in_relics ⟨none⟩ itemName = .error .attributeError) ∧
    (∀ relicName : String,
      find_relic_farm_locations ⟨none⟩ relicName = .error .attributeError) ∧
    (∀ modName : String, find_mod_in_missions ⟨none⟩ modName = .ok []) := by
  refine ⟨fun _ => rfl, fun _ => rfl, fun _ => rfl⟩

/-- Counterexample for C6: the uninitialized find_item_in_relics raises
AttributeError rather than reporting not-ready, and the uninitialized
find_mod_in_missions returns a value indistinguishable from the ordinary
empty result of a loaded corpus without the mod. -/
theorem claim_C6_counterexample :
    find_item_in_relics ⟨none⟩ "Gauss Prime Blueprint" = .error .attributeError ∧
    find_item_in_relics ⟨none⟩ "Gauss Prime Blueprint" ≠ .error .notReady ∧
    find_mod_in_missions ⟨none⟩ "Serration" =
      find_mod_in_missions ⟨some ⟨"x", "x"⟩⟩ "Serration" :=
  ⟨rfl, by decide, by decide⟩

/-- First aggregation witness record: 20 percent from relic L1. -/
def rAgg20 : FarmRecord :=
  { mission := "M", planet := "P", type := "T", rotation := "A", rarity := "Rare",
    drop_rate := 20, relic := "L1" }

/-- Second aggregation witness record: 10 percent from relic L2, same
(mission, planet, rotation) key. -/
def rAgg10 : FarmRecord :=
  { mission := "M", planet := "P", type := "T", rotation := "A", rarity := "Rare",
    drop_rate := 10, relic := "L2" }

/-- C3 (spec-modelled): every group of two or more records sharing one
(mission, planet, rotation) key is collapsed by aggregate_mission_drops
into a single record whose probability is the independent-union
combination 100 * (1 - product of (1 - p_i / 100)); in particular 20
percent and 10 percent combine to 28 percent, not 30. -/
theorem claim_C3 :
    (∀ (records : List FarmRecord) (k : String × String × String)
        (h : FarmRecord) (t : List FarmRecord),
      records.filter (fun r => decide (farmKey r = k)) = h :: t → t ≠ [] →
      (aggregate_mission_drops records).filter (fun a => decide (aggKey a = k)) =
          [aggOfGroup h t] ∧
        (aggOfGroup h t).drop_rate = combinedPct ((h :: t).map FarmRecord.drop_rate)) ∧
    aggregate_mission_drops [rAgg20, rAgg10] =
      [{ mission := "M", planet := "P", type := "T", rotation := "A", rarity := "Rare",
         drop_rate := 28, sources := .combined ["L1", "L2"] }] := by
  constructor
  · intro records k h t hfil hne
    constructor
    · rw [aggregate_mission_drops]
      have hkmem : k ∈ keysOf records := by
        rw [mem_keysOf]
        have hm : h ∈ records.filter (fun r => decide (farmKey r = k)) := by
          rw [hfil]; simp
        rcases List.mem_filter.1 hm with ⟨hh, hd⟩
        exact ⟨h, hh, by simpa using hd⟩
      exact aggFilter_of_mem (keysOf records) records k h t (keysOf_nodup records)
        hkmem hfil
    · cases t with
      | nil => exact absurd rfl hne
      | cons a as => rfl
  · norm_num [aggregate_mission_drops, keysOf, insertNew, farmKey, aggOfGroup,
      combinedPct, rAgg20, rAgg10, List.filterMap_cons]

/-- Witness for C3: on the two-record list the hypotheses hold and the
group collapses to its combined record. -/
theorem claim_C3_witness :
    ([rAgg20, rAgg10].filter
        (fun r => decide (farmKey r = ("M", "P", "A"))) = rAgg20 :: [rAgg10]) ∧
    ([rAgg10] : List FarmRecord) ≠ [] ∧
    (aggregate_mission_drops [rAgg20, rAgg10]).filter
        (fun a => decide (aggKey a = ("M", "P", "A"))) = [aggOfGroup rAgg20 [rAgg10]] ∧
    (aggOfGroup rAgg20 [rAgg10]).drop_rate =
      combinedPct ((rAgg20 :: [rAgg10]).map FarmRecord.drop_rate) :=
  ⟨by decide, by decide,
   (claim_C3.1 [rAgg20, rAgg10] ("M", "P", "A") rAgg20 [rAgg10] (by decide)
       (by decide)).1,
   (claim_C3.1 [rAgg20, rAgg10] ("M", "P", "A") rAgg20 [rAgg10] (by decide)
       (by decide)).2⟩

/-- C1: WarframeDropAnalyzer defines neither apply_mission_filters nor
aggregate_mission_drops, so every call of either on the analyzer raises
AttributeError, and each analysis path that reaches filtering or
aggregation terminates with that exception instead of returning records:
analyze_mod once the mod is found, analyze_prime_item and
analyze_single_component once an active relic yields a farm location. -/
theorem claim_C1 :
    ("apply_mission_filters" ∉ wdaMethodNames ∧
      "aggregate_mission_drops" ∉ wdaMethodNames) ∧
    (∀ (records : List FarmRecord) (filters : List String),
      call_apply_mission_filters records filters = .error .attributeError) ∧
    (∀ records : List FarmRecord,
      call_aggregate_mission_drops records = .error .attributeError) ∧
    (∀ (st : WDAState) (modName : String) (fIn : List String) (ms : List FarmRecord),
      find_mod_in_missions st modName = .ok ms → ms ≠ [] →
      analyze_mod st modName fIn = .error .attributeError) ∧
    (∀ (st : WDAState) (itemName : String) (fIn : List String) (sh : Bool)
        (rl : List (String × RelicStatus)) (fs : List FarmRecord),
      find_item_in_relics st itemName = .ok rl →
      collectActiveFarms st (activeOf rl) = .ok fs → fs ≠ [] →
      analyze_prime_item st itemName fIn sh = .error .attributeError) ∧
    (∀ (st : WDAState) (itemName : String) (f : List String)
        (rl : List (String × RelicStatus)) (fs : List FarmRecord),
      find_item_in_relics st itemName = .ok rl →
      collectActiveFarms st (activeOf rl) = .ok fs → fs ≠ [] →
      analyze_single_component st itemName f = .error .attributeError) := by
  refine ⟨⟨by decide, by decide⟩, call_apply_err, call_agg_err, ?_, ?_, ?_⟩
  · intro st modName fIn ms h hne
    simp only [analyze_mod, h, isEmpty_false_of_ne_nil hne, Bool.false_eq_true,
      if_false, call_apply_err]
  · intro st itemName fIn sh rl fs h1 h2 hne
    have hact : activeOf rl ≠ [] := by
      intro hnil
      rw [hnil] at h2
      simp only [collectActiveFarms, exceptFlat, Except.ok.injEq] at h2
      exact hne h2.symm
    have hrl : rl ≠ [] := by
      intro hnil
      apply hact
      rw [hnil]
      rfl
    simp only [analyze_prime_item, h1, isEmpty_false_of_ne_nil hrl, Bool.false_eq_true,
      if_false, h2, isEmpty_false_of_ne_nil hact, isEmpty_false_of_ne_nil hne]
    rcases Bool.dichotomy (if sh then fIn else []).isEmpty with hf | hf <;>
      simp only [hf, Bool.false_eq_true, if_false, if_true, call_apply_err, call_agg_err]
  · intro st itemName f rl fs h1 h2 hne
    have hact : activeOf rl ≠ [] := by
      intro hnil
      rw [hnil] at h2
      simp only [collectActiveFarms, exceptFlat, Except.ok.injEq] at h2
      exact hne h2.symm
    have hrl : rl ≠ [] := by
      intro hnil
      apply hact
      rw [hnil]
      rfl
    simp only [analyze_single_component, h1, isEmpty_false_of_ne_nil hrl,
      Bool.false_eq_true, if_false, h2, isEmpty_false_of_ne_nil hact]
    rcases Bool.dichotomy f.isEmpty with hf | hf <;>
      simp only [hf, Bool.false_eq_true, if_false, if_true, call_apply_err, call_agg_err]

/-- Loaded analyzer state of the C1 witness: the text rendering holds one
reward-table line for the item and one mission dropping its relic; the
raw rendering holds one mission dropping the mod. -/
def stW1 : WDAState :=
  ⟨some
    ⟨"Lith A1 Relic (Intact) Gauss Prime Blueprint\nMercury/Suisei (Spy)Rotation ALith A1 RelicRare (5%)",
     "Mercury/Suisei (Spy)Rotation ASerration | Rare (5%)"⟩⟩

/-- Mod missions the C1 witness state yields. -/
def w1ms : List FarmRecord := (find_mod_in_missions stW1 "Serration").toOption.getD []

/-- Relic map the C1 witness state yields for the item. -/
def w1rl : List (String × RelicStatus) :=
  (find_item_in_relics stW1 "Gauss Prime Blueprint").toOption.getD []

/-- Active-relic farm locations the C1 witness state yields. -/
def w1fs : List FarmRecord := (collectActiveFarms stW1 (activeOf w1rl)).toOption.getD []

/-- Witness for C1: on the loaded corpus the mod is found and the item has
an active relic with a farm location, and each of the three analysis paths
ends in AttributeError. -/
theorem claim_C1_witness :
    analyze_mod stW1 "Serration" [] = .error .attributeError ∧
    analyze_prime_item stW1 "Gauss Prime Blueprint" [] true = .error .attributeError ∧
    analyze_single_component stW1 "Gauss Prime Blueprint" [] =
      .error .attributeError :=
  ⟨claim_C1.2.2.2.1 stW1 "Serration" [] w1ms rfl (by decide),
   claim_C1.2.2.2.2.1 stW1 "Gauss Prime Blueprint" [] true w1rl w1fs rfl rfl
     (by decide),
   claim_C1.2.2.2.2.2 stW1 "Gauss Prime Blueprint" [] w1rl w1fs rfl rfl (by decide)⟩

/-- C7 (amended): within a rotation sub-segment the relic path emits one
FarmRecord per finditer match of the drop pattern, all rarity buckets
included, while the mod path uses re.search and emits at most the first
match, dropping any further rarity buckets; ValueError aborts either at
the first unparsable number. -/
theorem claim_C7 :
    (∀ (full : List Char) (m p t rot : String) (part : List Char),
      (relicPartRecords full m p t rot part).map List.length =
        relicLenOutcome (relicAllMatches full part)) ∧
    (∀ (modL : List Char) (m p t : String) (l : Char) (seg : List Char),
      (modRotRecords modL m p t l seg).map List.length =
        modLenOutcome (modAllMatches modL seg)) :=
  ⟨relicPartRecords_map_length, modRotRecords_map_length⟩

/-- Mod sub-segment of the C7 counterexample: the target occurs under two
rarity buckets. -/
def c7seg : List Char := "Serration | Common (5%) and Serration | Rare (2%)".data

/-- Relic sub-segment of the C7 counterexample: the target occurs under
two rarity buckets. -/
def c7rseg : List Char := "Lith A1 RelicUncommon (11%) Lith A1 RelicRare (2%)".data

/-- Counterexample for C7: a sub-segment listing the mod under two rarity
buckets has two qualifying matches yet the mod path emits one record; the
relic path on a two-bucket sub-segment emits both. -/
theorem claim_C7_counterexample :
    (modAllMatches "Serration".data c7seg).length = 2 ∧
    (modRotRecords "Serration".data "Alpha" "Mercury" "Spy" 'A' c7seg).map
        List.length = .ok 1 ∧
    (relicAllMatches "Lith A1 Relic".data c7rseg).length = 2 ∧
    (relicPartRecords "Lith A1 Relic".data "Alpha" "Mercury" "Spy" "A" c7rseg).map
        List.length = .ok 2 :=
  ⟨by decide, by decide, by decide, by decide⟩

/-- C8 (amended): for every mission content, with or without rotation
headers, the relic path first searches the segment before the first
rotation header under the label Reward and then each (letter,
sub-segment) pair under its preceding letter, while the mod path derives
its records solely from the pairs: its output is invariant under any
change of the pre-header segment, and every mod record originates in some
pair and carries that pair's letter label. -/
theorem claim_C8 :
    (∀ (modL : List Char) (m p t : String) (c1 c2 : List Char),
      (rotSplit c1).2 = (rotSplit c2).2 →
      modContentRecords modL m p t c1 = modContentRecords modL m p t c2) ∧
    (∀ (modL : List Char) (m p t : String) (content : List Char)
        (rs : List FarmRecord),
      modContentRecords modL m p t content = .ok rs →
      ∀ r ∈ rs, ∃ pr ∈ (rotSplit content).2, ∃ bs,
        modRotRecords modL m p t pr.1 pr.2 = .ok bs ∧ r ∈ bs ∧
          r.rotation = "Rot. " ++ String.mk [pr.1]) ∧
    (∀ (full : List Char) (m p t : String) (content : List Char)
        (rs : List FarmRecord),
      relicContentRecords full m p t content = .ok rs →
      ∃ first rest,
        relicPartRecords full m p t "Reward" (rotSplit content).1 = .ok first ∧
        rs = first ++ rest ∧
        ∀ r ∈ rest, ∃ pr ∈ (rotSplit content).2, ∃ bs,
          relicPartRecords full m p t (String.mk [pr.1]) pr.2 = .ok bs ∧ r ∈ bs) := by
  refine ⟨?_, ?_, ?_⟩
  · intro modL m p t c1 c2 h
    simp only [modContentRecords, h]
  · intro modL m p t content rs h r hr
    rw [modContentRecords] at h
    rcases exceptFlat_mem _ _ _ h r hr with ⟨pr, hpr, bs, hbs, hrbs⟩
    rcases modRotRecords_mem _ _ _ _ _ _ _ hbs r hrbs with ⟨_, _, _, e4, _⟩
    exact ⟨pr, hpr, bs, hbs, hrbs, e4⟩
  · intro full m p t content rs h
    simp only [relicContentRecords] at h
    split at h
    · exact absurd h (by simp)
    next first hfirst =>
      split at h
      · exact absurd h (by simp)
      next rest hrest =>
        rcases Except.ok.injEq .. ▸ h with rfl
        refine ⟨first, rest, hfirst, rfl, ?_⟩
        intro r hr
        rcases exceptFlat_mem _ _ _ hrest r hr with ⟨pr, hpr, bs, hbs, hrbs⟩
        exact ⟨pr, hpr, bs, hbs, hrbs⟩

/-- Mod-path mission content of the C8 witness whose pre-header segment
holds a qualifying match of the target. -/
def c8pre : List Char := "Serration | Rare (5%)Rotation ASerration | Common (7%)".data

/-- The same lettered sub-segments as c8pre with the pre-header segment
removed. -/
def c8bare : List Char := "Rotation ASerration | Common (7%)".data

/-- Relic-path mission content of the C8 witness, with one match before
the first rotation header and one inside a lettered sub-segment. -/
def c8rel : List Char := "Lith A1 RelicRare (5%)Rotation ALith A1 RelicUncommon (7%)".data

/-- Mod records of the C8 witness content. -/
def w8m : List FarmRecord :=
  (modContentRecords "Serration".data "Alpha" "Mercury" "Spy" c8pre).toOption.getD []

/-- Relic records of the C8 witness content. -/
def w8r : List FarmRecord :=
  (relicContentRecords "Lith A1 Relic".data "Alpha" "Mercury" "Spy" c8rel).toOption.getD []

/-- Witness for C8: on content whose pre-header segment holds a
qualifying mod match, the mod output equals the output with that segment
deleted, its records come from the lettered pairs, and the relic output
decomposes into the Reward search of the pre-header segment followed by
the letter-labelled pair records. -/
theorem claim_C8_witness :
    (rotSplit c8pre).2 = (rotSplit c8bare).2 ∧
    modContentRecords "Serration".data "Alpha" "Mercury" "Spy" c8pre =
      modContentRecords "Serration".data "Alpha" "Mercury" "Spy" c8bare ∧
    modContentRecords "Serration".data "Alpha" "Mercury" "Spy" c8pre = .ok w8m ∧
    w8m.headI ∈ w8m ∧
    (∃ pr ∈ (rotSplit c8pre).2, ∃ bs,
      modRotRecords "Serration".data "Alpha" "Mercury" "Spy" pr.1 pr.2 = .ok bs ∧
        w8m.headI ∈ bs ∧ w8m.headI.rotation = "Rot. " ++ String.mk [pr.1]) ∧
    relicContentRecords "Lith A1 Relic".data "Alpha" "Mercury" "Spy" c8rel = .ok w8r ∧
    (∃ first rest,
      relicPartRecords "Lith A1 Relic".data "Alpha" "Mercury" "Spy" "Reward"
          (rotSplit c8rel).1 = .ok first ∧
        w8r = first ++ rest ∧
        ∀ r ∈ rest, ∃ pr ∈ (rotSplit c8rel).2, ∃ bs,
          relicPartRecords "Lith A1 Relic".data "Alpha" "Mercury" "Spy"
            (String.mk [pr.1]) pr.2 = .ok bs ∧ r ∈ bs) :=
  ⟨by decide,
   claim_C8.1 "Serration".data "Alpha" "Mercury" "Spy" c8pre c8bare (by decide),
   rfl,
   headI_mem_of_ne_nil (by decide),
   claim_C8.2.1 "Serration".data "Alpha" "Mercury" "Spy" c8pre w8m rfl w8m.headI
     (headI_mem_of_ne_nil (by decide)),
   rfl,
   claim_C8.2.2 "Lith A1 Relic".data "Alpha" "Mercury" "Spy" c8rel w8r rfl⟩

/-- Counterexample for C8: with the reward listed before any rotation
header, the relic pipeline emits the Reward-labelled record but the mod
pipeline emits nothing although a qualifying match is present. -/
theorem claim_C8_counterexample :
    find_mod_in_missions ⟨some ⟨"", "Mercury/Alpha (Spy)Serration | Rare (5%)"⟩⟩
        "Serration" = .ok [] ∧
    (modAllMatches "Serration".data "Serration | Rare (5%)".data).length = 1 ∧
    find_relic_farm_locations ⟨some ⟨"Mercury/Alpha (Spy)Lith A1 RelicRare (5%)", ""⟩⟩
        "Lith A1" =
      .ok [{ mission := "Alpha", planet := "Mercury", type := "Spy",
             rotation := "Reward", rarity := "Rare", drop_rate := 5 }] :=
  ⟨by decide, by decide, by decide⟩

/-- C9 (amended): every record either pipeline emits comes from a mission
group whose stripped planet survived the skip test, so no relic record
carries planet Relics, Event or Baro, and no mod record carries Relics,
Event, Baro or Rotation; the mod path discards the extra pseudo-planet
Rotation that the relic path processes. -/
theorem claim_C9 :
    (∀ (st : WDAState) (name : String) (rs : List FarmRecord),
      find_relic_farm_locations st name = .ok rs →
      ∀ r ∈ rs, r.planet ≠ "Relics" ∧ r.planet ≠ "Event" ∧ r.planet ≠ "Baro") ∧
    (∀ (st : WDAState) (name : String) (rs : List FarmRecord),
      find_mod_in_missions st name = .ok rs →
      ∀ r ∈ rs, r.planet ≠ "Relics" ∧ r.planet ≠ "Event" ∧ r.planet ≠ "Baro" ∧
        r.planet ≠ "Rotation") ∧
    (∀ (name : String) (g : MGroup), String.mk (pyStrip g.g1) = "Rotation" →
      modGroupRecords name g = .ok []) := by
  refine ⟨?_, ?_, ?_⟩
  · intro st name rs h r hr
    rcases find_relic_farm_locations_mem st name rs h r hr with ⟨e1, e2, e3, _⟩
    exact ⟨e1, e2, e3⟩
  · intro st name rs h r hr
    rcases find_mod_in_missions_mem st name rs h r hr with ⟨e1, e2, e3, e4, _⟩
    exact ⟨e1, e2, e3, e4⟩
  · intro name g hpl
    simp [modGroupRecords, hpl]

/-- Relic-side analyzer state of the C9 witness. -/
def stW9r : WDAState := ⟨some ⟨"Mercury/Suisei (Spy)Rotation ALith A1 RelicRare (5%)", ""⟩⟩

/-- Mod-side analyzer state of the C9 witness. -/
def stW9m : WDAState := ⟨some ⟨"", "Mercury/Suisei (Spy)Rotation ASerration | Rare (5%)"⟩⟩

/-- Relic records of the C9 witness state. -/
def w9r : List FarmRecord := (find_relic_farm_locations stW9r "Lith A1").toOption.getD []

/-- Mod records of the C9 witness state. -/
def w9m : List FarmRecord := (find_mod_in_missions stW9m "Serration").toOption.getD []

/-- Mission group with pseudo-planet Rotation, for the C9 witness. -/
def g9 : MGroup :=
  ⟨"Rotation".data, "Alpha".data, "Defense".data, "Rotation ASerration | Rare (5%)".data⟩

/-- Witness for C9: the emitted records of a loaded corpus carry no
skipped pseudo-planet, and the Rotation group contributes nothing in the
mod path. -/
theorem claim_C9_witness :
    (w9r.headI.planet ≠ "Relics" ∧ w9r.headI.planet ≠ "Event" ∧
      w9r.headI.planet ≠ "Baro") ∧
    (w9m.headI.planet ≠ "Relics" ∧ w9m.headI.planet ≠ "Event" ∧
      w9m.headI.planet ≠ "Baro" ∧ w9m.headI.planet ≠ "Rotation") ∧
    modGroupRecords "Serration" g9 = .ok [] :=
  ⟨claim_C9.1 stW9r "Lith A1" w9r rfl w9r.headI (headI_mem_of_ne_nil (by decide)),
   claim_C9.2.1 stW9m "Serration" w9m rfl w9m.headI (headI_mem_of_ne_nil (by decide)),
   claim_C9.2.2 "Serration" g9 (by decide)⟩

/-- Counterexample for C9: a mission group whose planet is the literal
Rotation is processed by the relic pipeline (one record emitted) but
discarded by the mod pipeline, although Rotation is not among the three
planets the claim allows either pipeline to discard. -/
theorem claim_C9_counterexample :
    find_mod_in_missions
        ⟨some ⟨"", "Rotation/Alpha (Defense)Rotation ASerration | Rare (5%)"⟩⟩
        "Serration" = .ok [] ∧
    find_relic_farm_locations
        ⟨some ⟨"Rotation/Alpha (Defense)Rotation ALith A1 RelicRare (5%)", ""⟩⟩
        "Lith A1" =
      .ok [{ mission := "Alpha", planet := "Rotation", type := "Defense",
             rotation := "A", rarity := "Rare", drop_rate := 5 }] :=
  ⟨by decide, by decide⟩

/-- C10 (amended): every record either extractor emits has a non-negative
drop rate, read verbatim from the document; the upper bound 100 is not
enforced by the code. -/
theorem claim_C10 :
    (∀ (st : WDAState) (name : String) (rs : List FarmRecord),
      find_relic_farm_locations st name = .ok rs → ∀ r ∈ rs, 0 ≤ r.drop_rate) ∧
    (∀ (st : WDAState) (name : String) (rs : List FarmRecord),
      find_mod_in_missions st name = .ok rs → ∀ r ∈ rs, 0 ≤ r.drop_rate) := by
  constructor
  · intro st name rs h r hr
    exact (find_relic_farm_locations_mem st name rs h r hr).2.2.2
  · intro st name rs h r hr
    exact (find_mod_in_missions_mem st name rs h r hr).2.2.2.2

/-- Witness for C10: the drop rates of the records of a loaded corpus are
non-negative in both pipelines. -/
theorem claim_C10_witness :
    0 ≤ w9r.headI.drop_rate ∧ 0 ≤ w9m.headI.drop_rate :=
  ⟨claim_C10.1 stW9r "Lith A1" w9r rfl w9r.headI (headI_mem_of_ne_nil (by decide)),
   claim_C10.2 stW9m "Serration" w9m rfl w9m.headI (headI_mem_of_ne_nil (by decide))⟩

/-- Analyzer state of the C10 counterexample: the document prints a 250
percent drop chance. -/
def stC10 : WDAState := ⟨some ⟨"Mercury/Suisei (Spy)Rotation ALith A1 RelicRare (250%)", ""⟩⟩

/-- Records of the C10 counterexample state. -/
def w10recs : List FarmRecord := (find_relic_farm_locations stC10 "Lith A1").toOption.getD []

/-- Counterexample for C10: the extractor emits the printed 250 percent
verbatim, a drop rate outside the closed interval 0 to 100. -/
theorem claim_C10_counterexample :
    find_relic_farm_locations stC10 "Lith A1" = .ok w10recs ∧
    w10recs.length = 1 ∧
    w10recs.headI.drop_rate = 250 ∧
    ¬(w10recs.headI.drop_rate ≤ 100) :=
  ⟨rfl, by decide, by decide, by decide⟩
